import Mathlib

/-!
Shallow embedding of the Orbit Tasks to-do application core
(source file `TODO WEB/script.js`): the task data model, the Task Store
operations (add, toggle, edit, delete, clear-completed), the view filter
and stats computation inside the rendering step, and the JSON persistence
round-trip.  Host inputs (`Date.now()`, `toLocaleDateString()`, the text
field contents) are passed as explicit parameters.
-/

namespace Orbit

/-- A task, as constructed in `addTask` (script.js lines 44-49):
`{ id: Date.now(), text, completed: false, createdAt: ... }`. -/
structure Task where
  id : Nat
  text : String
  completed : Bool
  createdAt : String
  deriving DecidableEq, Repr

/-- The JavaScript whitespace set recognised by `String.prototype.trim`:
tab, line feed, vertical tab, form feed, carriage return, space, NBSP,
Ogham space mark, the Unicode space separators, line separator, paragraph
separator, narrow no-break space, medium mathematical space, ideographic
space, and the byte-order mark. -/
def isJsWhitespace (c : Char) : Bool :=
  c.toNat = 0x09 || c.toNat = 0x0a || c.toNat = 0x0b || c.toNat = 0x0c ||
  c.toNat = 0x0d || c.toNat = 0x20 || c.toNat = 0xa0 || c.toNat = 0x1680 ||
  (0x2000 ≤ c.toNat && c.toNat ≤ 0x200a) || c.toNat = 0x2028 ||
  c.toNat = 0x2029 || c.toNat = 0x202f || c.toNat = 0x205f ||
  c.toNat = 0x3000 || c.toNat = 0xfeff

/-- JavaScript `s.trim()`: remove leading and trailing whitespace. -/
def jsTrim (s : String) : String :=
  ⟨(s.data.dropWhile isJsWhitespace).rdropWhile isJsWhitespace⟩

/-- The `addTask` function (script.js lines 40-55): trim the input field
value; if the result is the empty string, do not add; otherwise prepend a
task with a fresh id (`Date.now()`, here the parameter `now`), the trimmed
text, `completed = false`, and the formatted current date (parameter
`today`). -/
def addTask (now : Nat) (today : String) (input : String) (tasks : List Task) :
    List Task :=
  let text := jsTrim input
  if text = "" then tasks
  else { id := now, text := text, completed := false, createdAt := today } :: tasks

/-- The `toggleTask` function (script.js lines 60-68): map over the
collection, flipping `completed` on the tasks whose id matches. -/
def toggleTask (id : Nat) (tasks : List Task) : List Task :=
  tasks.map fun task =>
    if task.id = id then { task with completed := !task.completed } else task

/-- The `deleteTask` function (script.js lines 73-76): keep the tasks whose
id differs. -/
def deleteTask (id : Nat) (tasks : List Task) : List Task :=
  tasks.filter fun task => task.id != id

/-- The `editTask` function (script.js lines 81-89): map over the
collection, replacing the text of the tasks whose id matches, with no
validation of the new text. -/
def editTask (id : Nat) (newText : String) (tasks : List Task) : List Task :=
  tasks.map fun task =>
    if task.id = id then { task with text := newText } else task

/-- The `clearCompleted` function (script.js lines 94-97): keep the tasks
that are not completed. -/
def clearCompleted (tasks : List Task) : List Task :=
  tasks.filter fun task => !task.completed

/-- The commit step of the inline edit flow: `saveEdit` inside
`enableEditMode` (script.js lines 214-223).  It trims the edit field value;
if the trimmed value is non-empty it calls `editTask` with it, otherwise it
abandons the edit, leaving the collection unchanged.  This is the only call
site of `editTask`, and together they implement the spec's
`edit(id, newText)` operation. -/
def saveEdit (id : Nat) (inputValue : String) (tasks : List Task) : List Task :=
  let newText := jsTrim inputValue
  if newText = "" then tasks else editTask id newText tasks

/-- The filtering step of `renderTasks` (script.js lines 110-115):
`active` keeps the tasks that are not completed, `completed` keeps the
completed ones, and any other mode (`all` included) keeps the full
collection unchanged. -/
def filterTasks (currentFilter : String) (tasks : List Task) : List Task :=
  if currentFilter = "active" then tasks.filter fun task => !task.completed
  else if currentFilter = "completed" then tasks.filter fun task => task.completed
  else tasks

/-- The number of completed tasks (`updateStats`, script.js line 187). -/
def completedCount (tasks : List Task) : Nat :=
  (tasks.filter fun t => t.completed).length

/-- The completion percentage (`updateStats`, script.js line 188):
`total === 0 ? 0 : Math.round((completed / total) * 100)`.  `Math.round`
rounds half toward positive infinity, which is `round` on the exact
rational value. -/
def percent (tasks : List Task) : ℤ :=
  if tasks.length = 0 then 0
  else round ((completedCount tasks : ℚ) / (tasks.length : ℚ) * 100)

/-! The persistence round-trip.  `stringifyTasks` models
`JSON.stringify(tasks)` in `saveAndRender` (script.js line 102) on the
exact object shape built by `addTask`: an array of objects with the fields
`id`, `text`, `completed`, `createdAt` in that order, numbers printed in
decimal, strings quoted with the standard JSON escapes (`\"`, `\\`, the
control-character shorthands and `\u00XX` for other control characters),
and no whitespace. -/

def hexDigitChar (n : Nat) : Char :=
  if n < 10 then Char.ofNat (48 + n) else Char.ofNat (87 + n)

def escapeChar (c : Char) : List Char :=
  if c = '"' then ['\\', '"']
  else if c = '\\' then ['\\', '\\']
  else if c = '\x08' then ['\\', 'b']
  else if c = '\x09' then ['\\', 't']
  else if c = '\x0a' then ['\\', 'n']
  else if c = '\x0c' then ['\\', 'f']
  else if c = '\x0d' then ['\\', 'r']
  else if c.toNat < 0x20 then
    ['\\', 'u', '0', '0', hexDigitChar (c.toNat / 16), hexDigitChar (c.toNat % 16)]
  else [c]

def printString (s : List Char) : List Char :=
  '"' :: (s.map escapeChar).flatten ++ ['"']

def digitChar (n : Nat) : Char := Char.ofNat (48 + n)

def natDigitsAux : Nat → Nat → List Char
  | 0, _ => []
  | fuel + 1, n =>
    if n < 10 then [digitChar n]
    else natDigitsAux fuel (n / 10) ++ [digitChar (n % 10)]

def natDigits (n : Nat) : List Char := natDigitsAux (n + 1) n

def printBool (b : Bool) : List Char :=
  if b then ['t', 'r', 'u', 'e'] else ['f', 'a', 'l', 's', 'e']

def litIdKey : List Char := ['\x7b', '"', 'i', 'd', '"', ':']
def litTextKey : List Char := [',', '"', 't', 'e', 'x', 't', '"', ':']
def litCompletedKey : List Char :=
  [',', '"', 'c', 'o', 'm', 'p', 'l', 'e', 't', 'e', 'd', '"', ':']
def litCreatedKey : List Char :=
  [',', '"', 'c', 'r', 'e', 'a', 't', 'e', 'd', 'A', 't', '"', ':']

def printTask (t : Task) : List Char :=
  litIdKey ++ natDigits t.id ++ litTextKey ++ printString t.text.data ++
  litCompletedKey ++ printBool t.completed ++ litCreatedKey ++
  printString t.createdAt.data ++ ['\x7d']

def printTasksTail : List Task → List Char
  | [] => [']']
  | t :: ts => ',' :: (printTask t ++ printTasksTail ts)

def stringifyTasks (tasks : List Task) : String :=
  match tasks with
  | [] => ⟨['[', ']']⟩
  | t :: ts => ⟨'[' :: (printTask t ++ printTasksTail ts)⟩

/-! `parseJson` models `JSON.parse(savedTasks)` in the `DOMContentLoaded`
handler (script.js lines 28-31), restricted to the grammar that
`stringifyTasks` emits; it fails with `none` on any other input and
requires the whole string to be consumed. -/

def expectLit : List Char → List Char → Option (List Char)
  | [], l => some l
  | _ :: _, [] => none
  | c :: cs, x :: xs => if x = c then expectLit cs xs else none

def hexVal (c : Char) : Option Nat :=
  if 48 ≤ c.toNat ∧ c.toNat ≤ 57 then some (c.toNat - 48)
  else if 97 ≤ c.toNat ∧ c.toNat ≤ 102 then some (c.toNat - 87)
  else if 65 ≤ c.toNat ∧ c.toNat ≤ 70 then some (c.toNat - 55)
  else none

def unescapeShort (e : Char) : Option Char :=
  if e = '"' then some '"'
  else if e = '\\' then some '\\'
  else if e = '/' then some '/'
  else if e = 'b' then some '\x08'
  else if e = 't' then some '\x09'
  else if e = 'n' then some '\x0a'
  else if e = 'f' then some '\x0c'
  else if e = 'r' then some '\x0d'
  else none

def parseStringBody : List Char → Option (List Char × List Char)
  | [] => none
  | c :: r =>
    if c = '"' then some ([], r)
    else if c = '\\' then
      match r with
      | [] => none
      | e :: r2 =>
        if e = 'u' then
          match r2 with
          | h1 :: h2 :: h3 :: h4 :: r3 => do
              let a ← hexVal h1
              let b ← hexVal h2
              let cv ← hexVal h3
              let d ← hexVal h4
              let (s, r4) ← parseStringBody r3
              some (Char.ofNat (((a * 16 + b) * 16 + cv) * 16 + d) :: s, r4)
          | _ => none
        else do
          let ec ← unescapeShort e
          let (s, r3) ← parseStringBody r2
          some (ec :: s, r3)
    else do
      let (s, r2) ← parseStringBody r
      some (c :: s, r2)

def isDigit (c : Char) : Bool := 48 ≤ c.toNat && c.toNat ≤ 57

def parseNat (l : List Char) : Option (Nat × List Char) :=
  let ds := l.takeWhile isDigit
  if ds.isEmpty then none
  else some (ds.foldl (fun n c => n * 10 + (c.toNat - 48)) 0, l.dropWhile isDigit)

def parseBool (l : List Char) : Option (Bool × List Char) :=
  match expectLit ['t', 'r', 'u', 'e'] l with
  | some r => some (true, r)
  | none =>
    match expectLit ['f', 'a', 'l', 's', 'e'] l with
    | some r => some (false, r)
    | none => none

def parseTaskObj (l : List Char) : Option (Task × List Char) := do
  let l1 ← expectLit litIdKey l
  let (i, l2) ← parseNat l1
  let l3 ← expectLit litTextKey l2
  let l4 ← expectLit ['"'] l3
  let (tx, l5) ← parseStringBody l4
  let l6 ← expectLit litCompletedKey l5
  let (cp, l7) ← parseBool l6
  let l8 ← expectLit litCreatedKey l7
  let l9 ← expectLit ['"'] l8
  let (ca, l10) ← parseStringBody l9
  let l11 ← expectLit ['\x7d'] l10
  some ({ id := i, text := ⟨tx⟩, completed := cp, createdAt := ⟨ca⟩ }, l11)

def parseTasksRest : Nat → List Char → Option (List Task × List Char)
  | _, [] => none
  | fuel, c :: r =>
    if c = ']' then some ([], r)
    else if c = ',' then
      match fuel with
      | 0 => none
      | fuel2 + 1 => do
          let (t, r2) ← parseTaskObj r
          let (ts, r3) ← parseTasksRest fuel2 r2
          some (t :: ts, r3)
    else none

def parseTasks (l : List Char) : Option (List Task × List Char) :=
  match l with
  | [] => none
  | c :: r =>
    if c = '[' then
      match r with
      | [] => none
      | c2 :: r2 =>
        if c2 = ']' then some ([], r2)
        else do
          let (t, r3) ← parseTaskObj (c2 :: r2)
          let (ts, r4) ← parseTasksRest (l.length + 1) r3
          some (t :: ts, r4)
    else none

def parseJson (s : String) : Option (List Task) :=
  match parseTasks s.data with
  | some (ts, []) => some ts
  | _ => none

end Orbit

namespace Orbit

/-- The spec's text invariant for a collection: every task's text is
non-empty and not whitespace-only. -/
def TextInvariant (tasks : List Task) : Prop :=
  ∀ t ∈ tasks, t.text ≠ "" ∧ ¬ (t.text.data.all isJsWhitespace = true)

/-- The head of `dropWhile p l`, when present, does not satisfy `p`. -/
theorem head_dropWhile_false (p : Char → Bool) (l : List Char) :
    ∀ a, (l.dropWhile p).head? = some a → p a = false := by
  induction l with
  | nil => intro a ha; simp at ha
  | cons x xs ih =>
    intro a ha
    rw [List.dropWhile_cons] at ha
    by_cases h : p x
    · rw [if_pos h] at ha
      exact ih a ha
    · rw [if_neg h] at ha
      simp at ha
      subst ha
      simpa using h

/-- A string trims to the empty string exactly when all its characters are
whitespace. -/
theorem jsTrim_empty_iff (s : String) :
    jsTrim s = "" ↔ ∀ c ∈ s.data, isJsWhitespace c := by
  rw [jsTrim, show ("" : String) = ⟨[]⟩ from rfl, String.ext_iff]
  simp only [List.rdropWhile_eq_nil_iff]
  constructor
  · intro hall c hc
    rw [← List.takeWhile_append_dropWhile (p := isJsWhitespace) (l := s.data)] at hc
    rcases List.mem_append.mp hc with h1 | h2
    · exact List.mem_takeWhile_imp h1
    · exact hall c h2
  · intro hall c hc
    exact hall c (List.Sublist.mem hc (List.dropWhile_sublist _))

/-- Trimming is idempotent. -/
theorem jsTrim_idem (s : String) : jsTrim (jsTrim s) = jsTrim s := by
  rw [jsTrim, jsTrim]
  congr 1
  set Y := s.data.dropWhile isJsWhitespace with hY
  set X := Y.rdropWhile isJsWhitespace with hX
  have hsuf : X.reverse <:+ Y.reverse := by
    rw [hX, List.rdropWhile, List.reverse_reverse]
    exact List.dropWhile_suffix _
  obtain ⟨u, hu⟩ := hsuf
  have hYX : Y = X ++ u.reverse := by
    have := congrArg List.reverse hu
    simpa using this.symm
  have hdrop : X.dropWhile isJsWhitespace = X := by
    match hXe : X with
    | [] => rfl
    | a :: X2 =>
      have haY : Y.head? = some a := by rw [hYX]; simp
      have hfalse : isJsWhitespace a = false := by
        apply head_dropWhile_false isJsWhitespace s.data
        rw [← hY]
        exact haY
      rw [List.dropWhile_cons, hfalse]
      simp
  rw [hdrop, hX, List.rdropWhile_idempotent]

/-- A string whose trim is non-empty is itself non-empty and not
whitespace-only. -/
theorem good_of_trim_ne (x : String) (h : jsTrim x ≠ "") :
    x ≠ "" ∧ ¬ (x.data.all isJsWhitespace = true) := by
  constructor
  · rintro rfl
    exact h (by decide)
  · intro hall
    exact h (jsTrim_empty_iff x |>.mpr (by simpa using hall))

/-- C1: committing an edit with a string whose trim is empty abandons the
edit: on a collection containing a task with the given id, the collection
after the call equals the collection before it, so the task's text is
unchanged. -/
theorem saveEdit_whitespace_abandons (id : Nat) (s : String) (tasks : List Task)
    (hmem : ∃ t ∈ tasks, t.id = id) (h : jsTrim s = "") :
    saveEdit id s tasks = tasks := by
  unfold saveEdit
  simp [h]

theorem saveEdit_whitespace_abandons_witness :
    (∃ t ∈ [(⟨1, "a", false, "d"⟩ : Task)], t.id = 1) ∧ jsTrim "  " = "" ∧
    saveEdit 1 "  " [(⟨1, "a", false, "d"⟩ : Task)] = [(⟨1, "a", false, "d"⟩ : Task)] :=
  ⟨by decide, by decide,
    saveEdit_whitespace_abandons 1 "  " [(⟨1, "a", false, "d"⟩ : Task)]
      (by decide) (by decide)⟩

/-- C2: the text invariant (every task's text non-empty and not
whitespace-only) is preserved by every Task Store operation with any
arguments: add, toggle, edit (the commit flow `saveEdit`), remove, and
clear-completed. -/
theorem textInvariant_preserved (now i : Nat) (today s u : String)
    (tasks : List Task) (h : TextInvariant tasks) :
    TextInvariant (addTask now today s tasks) ∧
    TextInvariant (toggleTask i tasks) ∧
    TextInvariant (saveEdit i u tasks) ∧
    TextInvariant (deleteTask i tasks) ∧
    TextInvariant (clearCompleted tasks) := by
  refine ⟨?_, ?_, ?_, ?_, ?_⟩
  · unfold addTask
    by_cases hs : jsTrim s = ""
    · simpa [hs] using h
    · simp only [if_neg hs]
      intro t ht
      rcases List.mem_cons.mp ht with rfl | ht2
      · exact good_of_trim_ne _ (by rw [jsTrim_idem]; exact hs)
      · exact h t ht2
  · intro t ht
    obtain ⟨t0, ht0, rfl⟩ := List.mem_map.mp ht
    have h0 := h t0 ht0
    by_cases hid : t0.id = i <;> simpa [toggleTask, hid] using h0
  · unfold saveEdit
    by_cases hu : jsTrim u = ""
    · simpa [hu] using h
    · simp only [if_neg hu]
      intro t ht
      obtain ⟨t0, ht0, rfl⟩ := List.mem_map.mp ht
      have h0 := h t0 ht0
      by_cases hid : t0.id = i
      · rw [if_pos hid]
        show jsTrim u ≠ "" ∧ ¬ ((jsTrim u).data.all isJsWhitespace = true)
        exact good_of_trim_ne (jsTrim u) (by rw [jsTrim_idem]; exact hu)
      · simpa [hid] using h0
  · intro t ht
    exact h t (List.mem_filter.mp ht).1
  · intro t ht
    exact h t (List.mem_filter.mp ht).1

theorem textInvariant_preserved_witness :
    TextInvariant [(⟨1, "a", false, "d"⟩ : Task)] ∧
    (TextInvariant (addTask 2 "d" " b " [(⟨1, "a", false, "d"⟩ : Task)]) ∧
     TextInvariant (toggleTask 1 [(⟨1, "a", false, "d"⟩ : Task)]) ∧
     TextInvariant (saveEdit 1 " c " [(⟨1, "a", false, "d"⟩ : Task)]) ∧
     TextInvariant (deleteTask 1 [(⟨1, "a", false, "d"⟩ : Task)]) ∧
     TextInvariant (clearCompleted [(⟨1, "a", false, "d"⟩ : Task)])) :=
  ⟨by unfold TextInvariant; decide,
   textInvariant_preserved 2 1 "d" " b " " c " [(⟨1, "a", false, "d"⟩ : Task)]
     (by unfold TextInvariant; decide)⟩

/-- C3: adding a string whose trim is non-empty grows the collection by
one; the new task is prepended, carries the trimmed text and
`completed = false`, and the previous collection follows unchanged. -/
theorem addTask_nonempty_prepends (now : Nat) (today s : String)
    (tasks : List Task) (h : jsTrim s ≠ "") :
    (addTask now today s tasks).length = tasks.length + 1 ∧
    ∃ t : Task, addTask now today s tasks = t :: tasks ∧
      t.text = jsTrim s ∧ t.completed = false := by
  unfold addTask
  simp only [if_neg h]
  exact ⟨by simp, _, rfl, rfl, rfl⟩

theorem addTask_nonempty_prepends_witness :
    jsTrim " hi " ≠ "" ∧
    ((addTask 5 "d" " hi " [(⟨1, "a", false, "d"⟩ : Task)]).length =
        ([(⟨1, "a", false, "d"⟩ : Task)] : List Task).length + 1 ∧
      ∃ t : Task, addTask 5 "d" " hi " [(⟨1, "a", false, "d"⟩ : Task)] =
          t :: [(⟨1, "a", false, "d"⟩ : Task)] ∧
        t.text = jsTrim " hi " ∧ t.completed = false) :=
  ⟨by decide, addTask_nonempty_prepends 5 "d" " hi "
    [(⟨1, "a", false, "d"⟩ : Task)] (by decide)⟩

/-- C4: adding a string that is empty or whitespace-only leaves the
collection unchanged. -/
theorem addTask_empty_noop (now : Nat) (today s : String) (tasks : List Task)
    (h : jsTrim s = "") : addTask now today s tasks = tasks := by
  unfold addTask
  simp [h]

theorem addTask_empty_noop_witness :
    jsTrim " " = "" ∧
    addTask 5 "d" " " [(⟨1, "a", false, "d"⟩ : Task)] =
      [(⟨1, "a", false, "d"⟩ : Task)] :=
  ⟨by decide, addTask_empty_noop 5 "d" " " [(⟨1, "a", false, "d"⟩ : Task)]
    (by decide)⟩

/-- C5: toggling the same id twice restores the original collection, every
field of every task included. -/
theorem toggleTask_involutive (id : Nat) (tasks : List Task) :
    toggleTask id (toggleTask id tasks) = tasks := by
  induction tasks with
  | nil => rfl
  | cons t ts ih =>
    simp only [toggleTask, List.map_cons] at *
    obtain ⟨i, x, c, d⟩ := t
    by_cases h : i = id <;> simp_all

/-- C6: the `active` and `completed` view-filter results partition the
collection exactly: together they are a permutation of it, and every task
of the collection belongs to exactly one of the two. -/
theorem filterTasks_partition (tasks : List Task) :
    (filterTasks "active" tasks ++ filterTasks "completed" tasks).Perm tasks ∧
    ∀ t ∈ tasks,
      (t ∈ filterTasks "active" tasks ↔ t ∉ filterTasks "completed" tasks) := by
  constructor
  · have h := List.filter_append_perm (fun t : Task => t.completed) tasks
    have h2 := List.perm_append_comm.trans h
    simpa [filterTasks] using h2
  · intro t ht
    cases h : t.completed <;> simp [filterTasks, List.mem_filter, ht, h]

theorem filterTasks_partition_witness :
    (filterTasks "active" [(⟨1, "a", false, "d"⟩ : Task), ⟨2, "b", true, "e"⟩] ++
      filterTasks "completed"
        [(⟨1, "a", false, "d"⟩ : Task), ⟨2, "b", true, "e"⟩]).Perm
      [(⟨1, "a", false, "d"⟩ : Task), ⟨2, "b", true, "e"⟩] ∧
    ((⟨1, "a", false, "d"⟩ : Task) ∈
        filterTasks "active" [(⟨1, "a", false, "d"⟩ : Task), ⟨2, "b", true, "e"⟩] ↔
      (⟨1, "a", false, "d"⟩ : Task) ∉
        filterTasks "completed"
          [(⟨1, "a", false, "d"⟩ : Task), ⟨2, "b", true, "e"⟩]) :=
  ⟨(filterTasks_partition [(⟨1, "a", false, "d"⟩ : Task), ⟨2, "b", true, "e"⟩]).1,
   (filterTasks_partition [(⟨1, "a", false, "d"⟩ : Task), ⟨2, "b", true, "e"⟩]).2
     (⟨1, "a", false, "d"⟩ : Task) (by decide)⟩

/-- C7: the completion percentage is 0 on the empty collection, 100 when
the collection is non-empty and every task is completed, and otherwise the
rounded value of completed-over-total times 100. -/
theorem percent_cases (tasks : List Task) :
    (tasks.length = 0 → percent tasks = 0) ∧
    (tasks.length ≠ 0 → (∀ t ∈ tasks, t.completed) → percent tasks = 100) ∧
    (tasks.length ≠ 0 →
      percent tasks =
        round ((completedCount tasks : ℚ) / (tasks.length : ℚ) * 100)) := by
  refine ⟨fun h => by simp [percent, h], fun h hall => ?_,
    fun h => by simp [percent, h]⟩
  have hc : completedCount tasks = tasks.length := by
    unfold completedCount
    rw [List.filter_eq_self.mpr hall]
  have hne : (tasks.length : ℚ) ≠ 0 := by exact_mod_cast h
  rw [percent, if_neg h, hc, div_self hne]
  norm_num

theorem percent_cases_witness :
    percent [] = 0 ∧
    percent [(⟨1, "a", true, "d"⟩ : Task)] = 100 ∧
    percent [(⟨1, "a", true, "d"⟩ : Task), ⟨2, "b", false, "d"⟩] =
      round ((completedCount
          [(⟨1, "a", true, "d"⟩ : Task), ⟨2, "b", false, "d"⟩] : ℚ) /
        (([(⟨1, "a", true, "d"⟩ : Task),
            ⟨2, "b", false, "d"⟩] : List Task).length : ℚ) * 100) :=
  ⟨(percent_cases []).1 rfl,
   (percent_cases [(⟨1, "a", true, "d"⟩ : Task)]).2.1 (by decide) (by decide),
   (percent_cases [(⟨1, "a", true, "d"⟩ : Task), ⟨2, "b", false, "d"⟩]).2.2
     (by decide)⟩

/-- C8: toggling changes at most the `completed` flag of the tasks whose id
matches: the length is unchanged and, pointwise in order, `id`, `text` and
`createdAt` are unchanged, and `completed` is unchanged on every
non-matching task. -/
theorem toggleTask_frame (id : Nat) (tasks : List Task) :
    (toggleTask id tasks).length = tasks.length ∧
    List.Forall₂ (fun t u : Task => u.id = t.id ∧ u.text = t.text ∧
      u.createdAt = t.createdAt ∧ (t.id ≠ id → u.completed = t.completed))
      tasks (toggleTask id tasks) := by
  refine ⟨by simp [toggleTask], ?_⟩
  induction tasks with
  | nil => exact List.Forall₂.nil
  | cons t ts ih =>
    simp only [toggleTask, List.map_cons] at *
    refine List.Forall₂.cons ?_ ih
    by_cases h : t.id = id <;> simp [h]

theorem toggleTask_frame_witness :
    (toggleTask 1 [(⟨1, "a", false, "d"⟩ : Task), ⟨2, "b", true, "e"⟩]).length =
      ([(⟨1, "a", false, "d"⟩ : Task), ⟨2, "b", true, "e"⟩] : List Task).length ∧
    List.Forall₂ (fun t u : Task => u.id = t.id ∧ u.text = t.text ∧
      u.createdAt = t.createdAt ∧ (t.id ≠ 1 → u.completed = t.completed))
      [(⟨1, "a", false, "d"⟩ : Task), ⟨2, "b", true, "e"⟩]
      (toggleTask 1 [(⟨1, "a", false, "d"⟩ : Task), ⟨2, "b", true, "e"⟩]) :=
  toggleTask_frame 1 [(⟨1, "a", false, "d"⟩ : Task), ⟨2, "b", true, "e"⟩]

/-- C10: for any filter mode other than `active` and `completed` (`all`
and unknown strings included) the view filter returns the full collection
unchanged. -/
theorem filterTasks_default_all (mode : String) (tasks : List Task)
    (h1 : mode ≠ "active") (h2 : mode ≠ "completed") :
    filterTasks mode tasks = tasks := by
  simp [filterTasks, h1, h2]

theorem filterTasks_default_all_witness :
    ("all" : String) ≠ "active" ∧ ("all" : String) ≠ "completed" ∧
    filterTasks "all" [(⟨1, "a", true, "d"⟩ : Task)] =
      [(⟨1, "a", true, "d"⟩ : Task)] :=
  ⟨by decide, by decide,
   filterTasks_default_all "all" [(⟨1, "a", true, "d"⟩ : Task)]
     (by decide) (by decide)⟩

theorem expectLit_append (lit rest : List Char) :
    expectLit lit (lit ++ rest) = some rest := by
  induction lit with
  | nil => rfl
  | cons c cs ih => simp [expectLit, ih]

theorem digitChar_toNat (m : Nat) (h : m < 10) : (digitChar m).toNat = 48 + m := by
  interval_cases m <;> decide

theorem isDigit_digitChar (m : Nat) (h : m < 10) : isDigit (digitChar m) = true := by
  interval_cases m <;> decide

theorem natDigitsAux_fuel (f1 f2 n : Nat) (h1 : n < f1) (h2 : n < f2) :
    natDigitsAux f1 n = natDigitsAux f2 n := by
  induction n using Nat.strong_induction_on generalizing f1 f2 with
  | _ n ih =>
    match f1, f2 with
    | fa + 1, fb + 1 =>
      simp only [natDigitsAux]
      by_cases hn : n < 10
      · simp [hn]
      · have hd : n / 10 < n := Nat.div_lt_self (by omega) (by omega)
        rw [if_neg hn, if_neg hn, ih (n / 10) hd fa fb (by omega) (by omega)]

theorem natDigits_unfold (n : Nat) :
    natDigits n = if n < 10 then [digitChar n]
      else natDigits (n / 10) ++ [digitChar (n % 10)] := by
  by_cases hn : n < 10
  · simp [natDigits, natDigitsAux, hn]
  · have hd : n / 10 < n := Nat.div_lt_self (by omega) (by omega)
    rw [if_neg hn]
    show natDigitsAux (n + 1) n = _
    simp only [natDigitsAux, if_neg hn]
    rw [natDigitsAux_fuel n (n / 10 + 1) (n / 10) (by omega) (by omega)]
    rfl

theorem natDigits_ne_nil (n : Nat) : natDigits n ≠ [] := by
  rw [natDigits_unfold]
  by_cases hn : n < 10 <;> simp [hn]

theorem natDigits_all_digits (n : Nat) :
    ∀ c ∈ natDigits n, isDigit c = true := by
  induction n using Nat.strong_induction_on with
  | _ n ih =>
    rw [natDigits_unfold]
    by_cases hn : n < 10
    · simpa [hn] using isDigit_digitChar n hn
    · have hd : n / 10 < n := Nat.div_lt_self (by omega) (by omega)
      simp only [if_neg hn]
      intro c hc
      rcases List.mem_append.mp hc with h1 | h2
      · exact ih (n / 10) hd c h1
      · simp at h2
        subst h2
        exact isDigit_digitChar (n % 10) (by omega)

theorem natDigits_foldl (n : Nat) :
    ∀ a, (natDigits n).foldl (fun m c => m * 10 + (c.toNat - 48)) a =
      a * 10 ^ (natDigits n).length + n := by
  induction n using Nat.strong_induction_on with
  | _ n ih =>
    intro a
    rw [natDigits_unfold]
    by_cases hn : n < 10
    · simp [hn, List.foldl, digitChar_toNat n hn]
    · have hd : n / 10 < n := Nat.div_lt_self (by omega) (by omega)
      simp only [if_neg hn, List.foldl_append, List.foldl_cons, List.foldl_nil,
        List.length_append, List.length_cons, List.length_nil]
      rw [ih (n / 10) hd a]
      rw [digitChar_toNat (n % 10) (by omega)]
      have : 48 + n % 10 - 48 = n % 10 := by omega
      rw [this]
      have hmod : n / 10 * 10 + n % 10 = n := by omega
      ring_nf
      omega

theorem takeWhile_append_all {p : Char → Bool} (a b : List Char)
    (h : ∀ x ∈ a, p x = true) :
    (a ++ b).takeWhile p = a ++ b.takeWhile p := by
  induction a with
  | nil => simp
  | cons x xs ih =>
    simp only [List.cons_append, List.takeWhile_cons, h x (by simp), if_true]
    rw [ih (fun y hy => h y (by simp [hy]))]

theorem dropWhile_append_all {p : Char → Bool} (a b : List Char)
    (h : ∀ x ∈ a, p x = true) :
    (a ++ b).dropWhile p = b.dropWhile p := by
  induction a with
  | nil => simp
  | cons x xs ih =>
    simp only [List.cons_append, List.dropWhile_cons, h x (by simp), if_true]
    exact ih (fun y hy => h y (by simp [hy]))

theorem parseNat_natDigits (n : Nat) (b : List Char) :
    parseNat (natDigits n ++ ',' :: b) = some (n, ',' :: b) := by
  unfold parseNat
  rw [takeWhile_append_all _ _ (natDigits_all_digits n),
    dropWhile_append_all _ _ (natDigits_all_digits n)]
  have hc : isDigit ',' = false := by decide
  simp only [List.takeWhile_cons, hc]
  simp only [Bool.false_eq_true, if_false, List.append_nil, List.dropWhile_cons, hc]
  rw [if_neg (by simpa using natDigits_ne_nil n)]
  simp [natDigits_foldl n 0]

theorem hexVal_hexDigitChar (m : Nat) (h : m < 16) :
    hexVal (hexDigitChar m) = some m := by
  interval_cases m <;> decide

theorem parseStringBody_short (e c : Char) (X str rest : List Char)
    (hu : e ≠ 'u') (he : unescapeShort e = some c)
    (ih : parseStringBody X = some (str, rest)) :
    parseStringBody ('\\' :: e :: X) = some (c :: str, rest) := by
  rw [parseStringBody.eq_def]
  simp [hu, he, ih]

theorem parseStringBody_escape (str rest : List Char) :
    parseStringBody ((str.map escapeChar).flatten ++ '"' :: rest) =
      some (str, rest) := by
  induction str generalizing rest with
  | nil =>
    rw [List.map_nil, List.flatten_nil, List.nil_append, parseStringBody.eq_def]
    simp
  | cons c cs ih =>
    rw [List.map_cons, List.flatten_cons, List.append_assoc]
    have ihX := ih rest
    by_cases h1 : c = '"'
    · subst h1
      rw [show escapeChar '"' = ['\\', '"'] from by decide]
      exact parseStringBody_short '"' '"' _ _ _ (by decide) (by decide) ihX
    · by_cases h2 : c = '\\'
      · subst h2
        rw [show escapeChar '\\' = ['\\', '\\'] from by decide]
        exact parseStringBody_short '\\' '\\' _ _ _ (by decide) (by decide) ihX
      · by_cases h3 : c = '\x08'
        · subst h3
          rw [show escapeChar '\x08' = ['\\', 'b'] from by decide]
          exact parseStringBody_short 'b' '\x08' _ _ _ (by decide) (by decide) ihX
        · by_cases h4 : c = '\x09'
          · subst h4
            rw [show escapeChar '\x09' = ['\\', 't'] from by decide]
            exact parseStringBody_short 't' '\x09' _ _ _ (by decide) (by decide) ihX
          · by_cases h5 : c = '\x0a'
            · subst h5
              rw [show escapeChar '\x0a' = ['\\', 'n'] from by decide]
              exact parseStringBody_short 'n' '\x0a' _ _ _ (by decide) (by decide) ihX
            · by_cases h6 : c = '\x0c'
              · subst h6
                rw [show escapeChar '\x0c' = ['\\', 'f'] from by decide]
                exact parseStringBody_short 'f' '\x0c' _ _ _ (by decide) (by decide) ihX
              · by_cases h7 : c = '\x0d'
                · subst h7
                  rw [show escapeChar '\x0d' = ['\\', 'r'] from by decide]
                  exact parseStringBody_short 'r' '\x0d' _ _ _ (by decide) (by decide) ihX
                · by_cases h8 : c.toNat < 0x20
                  · have he : escapeChar c = ['\\', 'u', '0', '0',
                        hexDigitChar (c.toNat / 16), hexDigitChar (c.toNat % 16)] := by
                      rw [escapeChar]
                      simp [h1, h2, h3, h4, h5, h6, h7, h8]
                    rw [he, parseStringBody.eq_def]
                    have hd1 : hexVal (hexDigitChar (c.toNat / 16)) = some (c.toNat / 16) :=
                      hexVal_hexDigitChar _ (by omega)
                    have hd2 : hexVal (hexDigitChar (c.toNat % 16)) = some (c.toNat % 16) :=
                      hexVal_hexDigitChar _ (by omega)
                    have h0 : hexVal '0' = some 0 := by decide
                    simp [h0, hd1, hd2, ihX]
                    have harith : (c.toNat / 16) * 16 + c.toNat % 16 = c.toNat := by omega
                    rw [harith, Char.ofNat_toNat]
                  · have he : escapeChar c = [c] := by
                      rw [escapeChar]
                      simp [h1, h2, h3, h4, h5, h6, h7, h8]
                    rw [he]
                    show parseStringBody (c :: _) = _
                    rw [parseStringBody.eq_def]
                    simp [h1, h2, ihX]

theorem expectLit_quote (R : List Char) : expectLit ['"'] ('"' :: R) = some R := by
  simp [expectLit]

theorem expectLit_brace (R : List Char) :
    expectLit ['\x7d'] ('\x7d' :: R) = some R := by
  simp [expectLit]

theorem parseNat_before_key (n : Nat) (b : List Char) :
    parseNat (natDigits n ++ (litTextKey ++ b)) = some (n, litTextKey ++ b) := by
  rw [show litTextKey ++ b =
    ',' :: (['"', 't', 'e', 'x', 't', '"', ':'] ++ b) from rfl]
  exact parseNat_natDigits n _

theorem parseBool_printBool (b : Bool) (rest : List Char) :
    parseBool (printBool b ++ rest) = some (b, rest) := by
  cases b
  · show parseBool (['f', 'a', 'l', 's', 'e'] ++ rest) = some (false, rest)
    rw [parseBool]
    have h1 : expectLit ['t', 'r', 'u', 'e'] (['f', 'a', 'l', 's', 'e'] ++ rest) =
        none := by simp [expectLit]
    rw [h1, expectLit_append]
  · show parseBool (['t', 'r', 'u', 'e'] ++ rest) = some (true, rest)
    rw [parseBool, expectLit_append]

theorem parseTaskObj_printTask (t : Task) (rest : List Char) :
    parseTaskObj (printTask t ++ rest) = some (t, rest) := by
  rw [printTask, parseTaskObj]
  simp only [printString, List.append_assoc, List.cons_append, List.singleton_append]
  simp [expectLit_append, expectLit_quote, expectLit_brace, parseNat_before_key,
    parseBool_printBool, parseStringBody_escape]

theorem printTasksTail_length (ts : List Task) :
    ts.length + 1 ≤ (printTasksTail ts).length := by
  induction ts with
  | nil => simp [printTasksTail]
  | cons t ts ih =>
    simp only [printTasksTail, List.length_cons, List.length_append]
    omega

theorem parseTasksRest_tail (ts : List Task) :
    ∀ fuel rest, ts.length < fuel →
      parseTasksRest fuel (printTasksTail ts ++ rest) = some (ts, rest) := by
  induction ts with
  | nil =>
    intro fuel rest h
    show parseTasksRest fuel (']' :: rest) = some ([], rest)
    rw [parseTasksRest.eq_def]
    simp
  | cons t ts ih =>
    intro fuel rest h
    obtain ⟨fuel2, rfl⟩ : ∃ f2, fuel = f2 + 1 := ⟨fuel - 1, by omega⟩
    show parseTasksRest (fuel2 + 1)
      (',' :: (printTask t ++ printTasksTail ts ++ rest)) = _
    rw [parseTasksRest.eq_def]
    rw [List.append_assoc]
    simp [parseTaskObj_printTask, ih fuel2 rest (by simpa using h)]

theorem parseTasks_stringify (tasks : List Task) :
    parseTasks (stringifyTasks tasks).data = some (tasks, []) := by
  cases tasks with
  | nil => decide
  | cons t ts =>
    show parseTasks ('[' :: (printTask t ++ printTasksTail ts)) = some (t :: ts, [])
    obtain ⟨R, hr⟩ : ∃ R, printTask t ++ printTasksTail ts = '\x7b' :: R := by
      rw [printTask, litIdKey]
      simp only [List.cons_append, List.append_assoc]
      exact ⟨_, rfl⟩
    rw [hr, parseTasks.eq_def]
    simp only [List.length_cons]
    rw [if_pos trivial, if_neg (by decide), ← hr, parseTaskObj_printTask]
    have hlen := congrArg List.length hr
    simp only [List.length_append, List.length_cons] at hlen
    have htl := printTasksTail_length ts
    have hrest := parseTasksRest_tail ts (R.length + 1 + 1 + 1) [] (by omega)
    rw [List.append_nil] at hrest
    simp [hrest]

/-- C9: serializing any collection with the persistence step and
deserializing the stored string with the load step yields a collection
equal to the original: same tasks, same order, and same `id`, `text`,
`completed` and `createdAt` values. -/
theorem stringify_parse_roundtrip (tasks : List Task) :
    parseJson (stringifyTasks tasks) = some tasks := by
  unfold parseJson
  rw [parseTasks_stringify]

end Orbit
